import Mathlib

/-!
Verification of `visaplan.tools._builder` (plain-text → HTML conversion)
and `visaplan.tools.html` (`entity_aware` tokenisation), as a shallow
embedding in Lean 4.

Strings are modelled as `List Char` (Python text) or `String` where the
source yields strings.  Whitespace is modelled as Python's
`string.whitespace` set (the source uses `string.whitespace` in the
classifier loop; `str.strip` is restricted to the same ASCII set, which
agrees with Python on every character occurring in these developments).
-/

namespace Visaplan

/-- Python `string.whitespace` membership: space, tab, LF, CR, VT, FF. -/
def wsChar (c : Char) : Bool :=
  c = ' ' || c = Char.ofNat 9 || c = Char.ofNat 10 ||
  c = Char.ofNat 13 || c = Char.ofNat 11 || c = Char.ofNat 12

/-- `BULLET_CHARS = set([unichr(name2codepoint['bull'])] + list(u'*-+'))`. -/
def bulletChar (c : Char) : Bool :=
  c = '*' || c = '-' || c = '+' || c = Char.ofNat 0x2022

/-- Python `s.rstrip()` (restricted to `string.whitespace`). -/
def rstripL (l : List Char) : List Char :=
  (l.reverse.dropWhile wsChar).reverse

/-- Python `s.lstrip()` (restricted to `string.whitespace`). -/
def lstripL (l : List Char) : List Char :=
  l.dropWhile wsChar

/-- Python `str.splitlines`, for the line boundaries LF, CR, CRLF
(no trailing empty line when the text ends in a line boundary). -/
def splitlinesGo : List Char → List Char → List (List Char)
  | [], acc => [acc.reverse]
  | '\r' :: '\n' :: cs, acc =>
      acc.reverse :: (if cs.isEmpty then [] else splitlinesGo cs [])
  | '\r' :: cs, acc =>
      acc.reverse :: (if cs.isEmpty then [] else splitlinesGo cs [])
  | '\n' :: cs, acc =>
      acc.reverse :: (if cs.isEmpty then [] else splitlinesGo cs [])
  | c :: cs, acc => splitlinesGo cs (c :: acc)

def splitlines (s : String) : List (List Char) :=
  if s.data.isEmpty then [] else splitlinesGo s.data []

/-- The result of `LineInfo.__init__` (`_builder.py`): the classified line.
The Python attribute `prefix` is called `pfx` here (`prefix` is reserved
in Lean). -/
structure LineInfo where
  bullet : Option Char
  pfx : Option (List Char)
  text : List Char
  empty : Bool
deriving DecidableEq

/-- The `for ch in s` loop of `LineInfo.__init__`: walks the (right-stripped)
line; returns `self.bullet` (set only when whitespace follows a bullet
character) and the accumulated whitespace `pref`.  The Python loop also
counts `i`, which is never used afterwards, so it is omitted. -/
def lineScan : List Char → Option Char → List Char → Option Char × List Char
  | [], _, pref => (none, pref)
  | c :: cs, b, pref =>
    if bulletChar c then lineScan cs (some c) pref
    else if wsChar c then
      match b with
      | none => lineScan cs none (pref ++ [c])
      | some bc => (some bc, pref)
    else (none, pref)

/-- `LineInfo.__init__` on one line. -/
def mkLineInfo (s0 : List Char) : LineInfo :=
  let s := rstripL s0
  let scan := lineScan s none []
  let bullet := scan.1
  let pref := scan.2
  let off := (if pref.isEmpty then 0 else pref.length) +
             (if bullet.isSome then 2 else 0)
  let text := lstripL (s.drop off)
  { bullet := bullet
    pfx := if pref.isEmpty then none else some pref
    text := text
    empty := text.isEmpty }

/-- Python 3 `html.escape(s, quote=True)`, one character. -/
def escape_char (c : Char) : List Char :=
  if c = '&' then ("&amp;").data
  else if c = '<' then ("&lt;").data
  else if c = '>' then ("&gt;").data
  else if c = Char.ofNat 34 then ("&quot;").data
  else if c = Char.ofNat 39 then ("&#x27;").data
  else [c]

/-- Python 3 `html.escape(s, quote=True)` (sequential replacement is
equivalent to the character-wise map, since no replacement output
contains a character that a later replacement would rewrite). -/
def html_escape (l : List Char) : String :=
  String.mk (l.map escape_char).flatten

/-- Python truthiness of the `prefix` attribute (None or a string). -/
def pyTruthyPfx : Option (List Char) → Bool
  | none => false
  | some l => !l.isEmpty

/-- `prev_o is None or prev_o.empty`, second disjunct. -/
def prevEmpty : Option LineInfo → Bool
  | none => false
  | some p => p.empty

/-- One iteration of the `for prev_o, o, next_o in sequence_slide(seq)`
loop body of `from_plain_text` (`next_o` is unused by the body):
emitted tokens and the updated `in_list` flag. -/
def fpt_step (in_list : Bool) (prev_o : Option LineInfo) (o : LineInfo) :
    List String × Bool :=
  if o.empty then
    if in_list then (["</ul>"], false) else ([], in_list)
  else if o.bullet.isSome then
    if in_list then (["<li>", html_escape o.text], in_list)
    else (["<ul>", "<li>", html_escape o.text], true)
  else if in_list && pyTruthyPfx o.pfx then
    (["<br>", html_escape o.text], in_list)
  else
    let closeToks : List String := if in_list then ["</ul>"] else []
    if in_list || prev_o.isNone || prevEmpty prev_o then
      (closeToks ++ ["<p>", html_escape o.text], false)
    else
      (closeToks ++ ["<br>", html_escape o.text], in_list)

/-- `visaplan.tools.sequences.sequence_slide`: (prev, current, next)
triples (with `None` for the missing neighbours). -/
def slideGo : Option α → List α → List (Option α × α × Option α)
  | _, [] => []
  | prev, x :: rest => (prev, x, rest.head?) :: slideGo (some x) rest

def sequence_slide (xs : List α) : List (Option α × α × Option α) :=
  slideGo none xs

/-- The main loop of `from_plain_text`, threading `in_list` through the
slid sequence; also returns the final `in_list` flag. -/
def fpt_fold : Bool → List (Option LineInfo × LineInfo × Option LineInfo) →
    List String × Bool
  | st, [] => ([], st)
  | st, (prev, o, _next) :: rest =>
    let p := fpt_step st prev o
    let q := fpt_fold p.2 rest
    (p.1 ++ q.1, q.2)

/-- `from_plain_text` down to the token list `res`, plus the final
`in_list` state. -/
def fpt_run (txt : String) : List String × Bool :=
  fpt_fold false (sequence_slide ((splitlines txt).map mkLineInfo))

def fpt_tokens (txt : String) : List String := (fpt_run txt).1

/-- `from_plain_text(txt, joiner)` = `joiner.join(res)`. -/
def from_plain_text (txt : String) (joiner : String) : String :=
  String.intercalate joiner (fpt_tokens txt)

/-! ## `visaplan.tools.html.entity_aware` -/

/-- A one-character string (a plain character yielded by the generator). -/
def chStr (c : Char) : String := String.mk [c]

/-- The mutable closure state of the `entity_aware` generator.
The Python name `entity_prefix` is called `epfx` here. -/
structure EAState where
  buf : List Char
  epfx : Option String
  onshelf : Option String
  in_entity : Bool
deriving DecidableEq

/-- `_ENTITY_CHARS`: the characters admissible after each entity prefix. -/
def entityChars (p : String) (c : Char) : Bool :=
  if p = "&" then
    decide (('a' ≤ c ∧ c ≤ 'z') ∨ ('A' ≤ c ∧ c ≤ 'Z') ∨
            ('0' ≤ c ∧ c ≤ '9') ∨ c = '_')
  else if p = "&#" then decide ('0' ≤ c ∧ c ≤ '9')
  else if p = "&#x" then
    decide (('0' ≤ c ∧ c ≤ '9') ∨ ('a' ≤ c ∧ c ≤ 'f') ∨ ('A' ≤ c ∧ c ≤ 'F'))
  else false

/-- The atoms yielded by the local `flush(ch)` helper: the shelved atom,
then the prefix characters (or a lone `&` if only `in_entity` is set),
then the buffered characters, then the optional argument. -/
def flushTokens (st : EAState) (ch : Option String) : List String :=
  (match st.onshelf with | some x => [x] | none => []) ++
  (match st.epfx with
   | some p => p.data.map chStr
   | none => if st.in_entity then ["&"] else []) ++
  st.buf.map chStr ++
  (match ch with | some a => [a] | none => [])

/-- The state after `flush` (and the initial generator state). -/
def flushedState : EAState := ⟨[], none, none, false⟩

/-- One step of the `for ch in s` loop of `entity_aware`. -/
def ea_step (st : EAState) (c : Char) : List String × EAState :=
  if c = '&' then
    if st.onshelf.isNone then
      (flushTokens st none, { flushedState with in_entity := true })
    else
      ([], { st with in_entity := true })
  else if !st.buf.isEmpty then
    if c = ';' then
      let ent := st.epfx.getD ("") ++ String.mk st.buf ++ ";"
      let st1 : EAState := { st with buf := [], epfx := none, in_entity := false }
      match st.onshelf with
      | some x => ([x ++ ent], { st1 with onshelf := none })
      | none =>
        if ent = "&#195;" then ([], { st1 with onshelf := some ent })
        else (flushTokens st1 (some ent), flushedState)
    else if entityChars (st.epfx.getD ("")) c then
      ([], { st with buf := st.buf ++ [c] })
    else
      -- "not a valid entity!"  (the inner `ch == '&'` test of the source
      -- is unreachable here, since the outermost branch already took it)
      if c = '&' then
        (flushTokens st none, { flushedState with in_entity := true })
      else
        (flushTokens st none ++ [chStr c], flushedState)
  else if st.epfx.isSome then
    if entityChars (st.epfx.getD ("")) c then
      ([], { st with buf := st.buf ++ [c] })
    else
      (flushTokens st (some (chStr c)), flushedState)
  else if st.in_entity then
    if c = '#' then
      ([], { st with epfx := some ("&" ++ chStr c) })
    else if entityChars ("&") c then
      match st.onshelf with
      | some x => ([x], { st with onshelf := none, epfx := some ("&"), buf := [c] })
      | none => ([], { st with epfx := some ("&"), buf := [c] })
    else
      (flushTokens st (some (chStr c)), flushedState)
  else
    (flushTokens st (some (chStr c)), flushedState)

/-- The whole generator: run the loop, then the final `flush()`. -/
def ea_go : EAState → List Char → List String
  | st, [] => flushTokens st none
  | st, c :: cs =>
    let p := ea_step st c
    p.1 ++ ea_go p.2 cs

/-- `entity_aware(s)`, as the list of yielded atoms. -/
def entity_aware (s : String) : List String :=
  ea_go flushedState s.data

/-! ## Specification-side definitions -/

/-- Token counter (`res.count(tok)`), used to compare `<ul>` and `</ul>`
occurrences in the emitted token stream. -/
def countTok (tok : String) : List String → Nat
  | [] => 0
  | t :: rest => (if t = tok then 1 else 0) + countTok tok rest

/-- The bullet a line should get according to the amended reading of the
spec: after the line is right-stripped, skip the leading whitespace; if a
nonempty run of bullet characters follows, immediately followed by a
whitespace character, the bullet is the last character of the run;
otherwise there is no bullet. -/
def bulletSpec (s0 : List Char) : Option Char :=
  let l1 := (rstripL s0).dropWhile wsChar
  let run := l1.takeWhile bulletChar
  let rest := l1.dropWhile bulletChar
  if run.isEmpty then none
  else match rest.head? with
       | some w => if wsChar w then run.getLast? else none
       | none => none

/-- The `prefix` attribute according to the amended reading of the spec:
the leading whitespace of the right-stripped line, or `None` when there is
none (independently of bullet recognition). -/
def pfxSpec (s0 : List Char) : Option (List Char) :=
  let w := (rstripL s0).takeWhile wsChar
  if w.isEmpty then none else some w

/-- The shape every atom of `entity_aware` is claimed to have: a single
character, or a completed entity reference starting with `&` and ending
with `;` (which covers the merged double-byte atom as well). -/
def GoodAtom (a : String) : Prop :=
  a.data.length = 1 ∨ (a.data.head? = some '&' ∧ a.data.getLast? = some ';')

/-- Closed form of `lineScan` once a bullet has been seen: consume further
bullet characters (remembering the last), stop at whitespace (recording
the bullet) or at anything else (recording no bullet). -/
def bulletEnd (l : List Char) (c : Char) : Option Char :=
  match (l.dropWhile bulletChar).head? with
  | some w => if wsChar w then some ((l.takeWhile bulletChar).getLastD c) else none
  | none => none

/-- Invariant of the `entity_aware` state: only `"&#195;"` is ever
shelved, the prefix is one of the two reachable values (`"&#x"` is
never assigned), and a nonempty buffer implies a prefix. -/
def EAInv (st : EAState) : Prop :=
  (st.onshelf = none ∨ st.onshelf = some ("&#195;")) ∧
  (st.epfx = none ∨ st.epfx = some ("&") ∨ st.epfx = some ("&#")) ∧
  (st.buf ≠ [] → st.epfx ≠ none)

/-! ## Helper lemmas -/

lemma countTok_append (tok : String) (l1 l2 : List String) :
    countTok tok (l1 ++ l2) = countTok tok l1 + countTok tok l2 := by
  induction l1 with
  | nil => simp [countTok]
  | cons t rest ih => simp [countTok, ih]; omega

lemma ws_not_bullet {c : Char} (h : wsChar c = true) : bulletChar c = false := by
  simp only [wsChar, Bool.or_eq_true, decide_eq_true_eq] at h
  rcases h with (((((rfl | rfl) | rfl) | rfl) | rfl) | rfl) <;> decide

lemma bullet_not_ws {c : Char} (h : bulletChar c = true) : wsChar c = false := by
  simp only [bulletChar, Bool.or_eq_true, decide_eq_true_eq] at h
  rcases h with (((rfl | rfl) | rfl) | rfl) <;> decide

lemma dropWhile_append_all {α : Type} {p : α → Bool} :
    ∀ {a : List α}, (∀ x ∈ a, p x = true) →
      ∀ b, List.dropWhile p (a ++ b) = List.dropWhile p b := by
  intro a
  induction a with
  | nil => intro _ b; simp
  | cons c cs ih =>
    intro ha b
    have hc : p c = true := ha c (by simp)
    simp only [List.cons_append, List.dropWhile_cons, hc, if_true]
    exact ih (fun x hx => ha x (by simp [hx])) b

lemma dropWhile_head_false {α : Type} {p : α → Bool} :
    ∀ {l : List α} {c : α} {cs : List α}, l.dropWhile p = c :: cs → p c = false := by
  intro l
  induction l with
  | nil => intro c cs h; simp [List.dropWhile] at h
  | cons d ds ih =>
    intro c cs h
    by_cases hd : p d = true
    · exact ih (by simpa [List.dropWhile_cons, hd] using h)
    · rw [List.dropWhile_cons, if_neg (by simp [hd])] at h
      cases h
      simpa using hd

lemma getLast?_cons_eq {α : Type} (c : α) (l : List α) :
    (c :: l).getLast? = some (l.getLastD c) := by
  induction l generalizing c with
  | nil => rfl
  | cons d ds ih => rw [List.getLastD_cons]; exact ih d

lemma rstripL_append_ws {w : List Char} (hw : ∀ c ∈ w, wsChar c = true)
    (l : List Char) : rstripL (l ++ w) = rstripL l := by
  unfold rstripL
  rw [List.reverse_append,
      dropWhile_append_all (fun x hx => hw x (List.mem_reverse.mp hx))]

lemma rstripL_ends_nonws {l : List Char} {b : Char} (hb : wsChar b = false) :
    rstripL (l ++ [b]) = l ++ [b] := by
  unfold rstripL
  rw [List.reverse_append]
  simp [List.dropWhile_cons, hb]

lemma mkLineInfo_bullet (s : List Char) :
    (mkLineInfo s).bullet = (lineScan (rstripL s) none []).1 := rfl

lemma mkLineInfo_pfx (s : List Char) :
    (mkLineInfo s).pfx =
      (if (lineScan (rstripL s) none []).2.isEmpty then none
       else some (lineScan (rstripL s) none []).2) := rfl

lemma lineScan_ws_phase (l : List Char) : ∀ pref : List Char,
    lineScan l none pref =
      lineScan (l.dropWhile wsChar) none (pref ++ l.takeWhile wsChar) := by
  induction l with
  | nil => intro pref; simp [List.dropWhile_nil, List.takeWhile_nil]
  | cons c cs ih =>
    intro pref
    by_cases hb : bulletChar c = true
    · have hw : wsChar c = false := bullet_not_ws hb
      simp [lineScan, hb, List.dropWhile_cons, List.takeWhile_cons, hw]
    · rw [Bool.not_eq_true] at hb
      by_cases hw : wsChar c = true
      · rw [List.dropWhile_cons, List.takeWhile_cons]
        simp only [lineScan, hb, hw, Bool.false_eq_true, if_false, if_true]
        rw [ih (pref ++ [c])]
        simp [List.append_assoc]
      · rw [Bool.not_eq_true] at hw
        simp [lineScan, hb, hw, List.dropWhile_cons, List.takeWhile_cons]

lemma lineScan_some_eq (l : List Char) : ∀ (c : Char) (pref : List Char),
    lineScan l (some c) pref = (bulletEnd l c, pref) := by
  induction l with
  | nil => intro c pref; simp [lineScan, bulletEnd]
  | cons d cs ih =>
    intro c pref
    by_cases hb : bulletChar d = true
    · rw [bulletEnd, List.dropWhile_cons, List.takeWhile_cons]
      simp only [lineScan, hb, if_true]
      rw [ih d pref, List.getLastD_cons]
      rfl
    · rw [Bool.not_eq_true] at hb
      by_cases hw : wsChar d = true
      · simp [lineScan, hb, hw, bulletEnd, List.dropWhile_cons,
              List.takeWhile_cons]
      · rw [Bool.not_eq_true] at hw
        simp [lineScan, hb, hw, bulletEnd, List.dropWhile_cons,
              List.takeWhile_cons]

lemma lineScan_eval (l : List Char) :
    lineScan l none [] =
      ((let l1 := l.dropWhile wsChar
        let run := l1.takeWhile bulletChar
        let rest := l1.dropWhile bulletChar
        if run.isEmpty then none
        else match rest.head? with
             | some w => if wsChar w then run.getLast? else none
             | none => none),
       l.takeWhile wsChar) := by
  rw [lineScan_ws_phase l []]
  simp only [List.nil_append]
  rcases hl : l.dropWhile wsChar with _ | ⟨c, cs⟩
  · simp [lineScan]
  · by_cases hb : bulletChar c = true
    · simp only [lineScan, hb, if_true]
      rw [lineScan_some_eq]
      rw [List.takeWhile_cons, List.dropWhile_cons]
      simp only [hb, if_true, List.isEmpty_cons, bulletEnd]
      rw [getLast?_cons_eq]
      simp
    · have hw : wsChar c = false := dropWhile_head_false hl
      rw [Bool.not_eq_true] at hb
      simp [lineScan, hb, hw, List.takeWhile_cons]

lemma escape_char_no_lt (c : Char) : ('<') ∉ escape_char c := by
  unfold escape_char
  split_ifs with h1 h2 h3 h4 h5
  · decide
  · decide
  · decide
  · decide
  · decide
  · simp only [List.mem_singleton]
    exact fun h => h2 h.symm

lemma html_escape_no_lt (l : List Char) : ('<') ∉ (html_escape l).data := by
  intro h
  have hd : (html_escape l).data = (l.map escape_char).flatten := rfl
  rw [hd, List.mem_flatten] at h
  obtain ⟨piece, hp, hm⟩ := h
  rw [List.mem_map] at hp
  obtain ⟨c, _, rfl⟩ := hp
  exact absurd hm (escape_char_no_lt c)

lemma html_escape_ne_ul (l : List Char) : html_escape l ≠ "<ul>" := by
  intro h
  have h2 := html_escape_no_lt l
  rw [h] at h2
  exact h2 (by decide)

lemma html_escape_ne_cul (l : List Char) : html_escape l ≠ "</ul>" := by
  intro h
  have h2 := html_escape_no_lt l
  rw [h] at h2
  exact h2 (by decide)

lemma fpt_step_count (st : Bool) (prev : Option LineInfo) (o : LineInfo) :
    countTok ("<ul>") (fpt_step st prev o).1 + (if st then 1 else 0)
      = countTok ("</ul>") (fpt_step st prev o).1
        + (if (fpt_step st prev o).2 then 1 else 0) := by
  unfold fpt_step
  split_ifs <;>
    simp_all [countTok, html_escape_ne_ul o.text, html_escape_ne_cul o.text]

lemma fpt_fold_count (trip : List (Option LineInfo × LineInfo × Option LineInfo)) :
    ∀ st : Bool,
      countTok ("<ul>") (fpt_fold st trip).1 + (if st then 1 else 0)
        = countTok ("</ul>") (fpt_fold st trip).1
          + (if (fpt_fold st trip).2 then 1 else 0) := by
  induction trip with
  | nil => intro st; simp [fpt_fold, countTok]
  | cons hd rest ih =>
    intro st
    obtain ⟨prev, o, nxt⟩ := hd
    have hstep := fpt_step_count st prev o
    rcases hs : fpt_step st prev o with ⟨toks, st1⟩
    have hrest := ih st1
    rcases hf : fpt_fold st1 rest with ⟨toks2, st2⟩
    rw [hs] at hstep
    rw [hf] at hrest
    simp only [fpt_fold, hs, hf, countTok_append]
    cases st <;> cases st1 <;> cases st2 <;> simp_all <;> omega

lemma takeWhile_append_all {α : Type} {p : α → Bool} :
    ∀ {a : List α}, (∀ x ∈ a, p x = true) →
      ∀ b, List.takeWhile p (a ++ b) = a ++ List.takeWhile p b := by
  intro a
  induction a with
  | nil => intro _ b; simp
  | cons c cs ih =>
    intro ha b
    have hc : p c = true := ha c (by simp)
    simp only [List.cons_append, List.takeWhile_cons, hc, if_true]
    rw [ih (fun x hx => ha x (by simp [hx])) b]

lemma mkLineInfo_text (s : List Char) :
    (mkLineInfo s).text =
      lstripL ((rstripL s).drop
        ((if (lineScan (rstripL s) none []).2.isEmpty then 0
          else (lineScan (rstripL s) none []).2.length) +
         (if (lineScan (rstripL s) none []).1.isSome then 2 else 0))) := rfl

lemma mkLineInfo_pfx_nonempty {s : List Char} {p : List Char}
    (h : (mkLineInfo s).pfx = some p) : p.isEmpty = false := by
  rw [mkLineInfo_pfx] at h
  by_cases he : (lineScan (rstripL s) none []).2.isEmpty
  · rw [if_pos he] at h
    cases h
  · rw [if_neg he] at h
    cases h
    simpa using he

lemma entityChars_amp_props {c : Char} (h : entityChars ("&") c = true) :
    c ≠ '&' ∧ c ≠ ';' ∧ c ≠ '#' := by
  refine ⟨?_, ?_, ?_⟩ <;> rintro rfl <;> exact absurd h (by decide)

lemma ea_accum : ∀ (rest b : List Char) (ie : Bool), b ≠ [] →
    (∀ c ∈ b, entityChars ("&") c = true) →
    (∀ c ∈ rest, entityChars ("&") c = true) →
    ea_go ⟨b, some ("&"), none, ie⟩ (rest ++ [';']) =
      ["&" ++ String.mk (b ++ rest) ++ ";"] := by
  intro rest
  induction rest with
  | nil =>
    intro b ie hb hball _
    have hbe : b.isEmpty = false := by
      cases b
      · exact absurd rfl hb
      · rfl
    have hne : ("&" : String) ++ String.mk b ++ ";" ≠ "&#195;" := by
      intro h
      have hd := congrArg String.data h
      rw [String.data_append, String.data_append] at hd
      have e1 : ("&" : String).data = ['&'] := rfl
      have e2 : ((";") : String).data = [';'] := rfl
      have e3 : (("&#195;") : String).data = ['&', '#', '1', '9', '5', ';'] := rfl
      have e4 : (String.mk b).data = b := rfl
      rw [e1, e2, e3, e4] at hd
      simp only [List.cons_append, List.nil_append, List.cons.injEq,
                 true_and] at hd
      have hb4 : b = ['#', '1', '9', '5'] := by
        have h5 := congrArg List.dropLast hd
        simpa using h5
      have h6 := hball '#' (by rw [hb4]; simp)
      exact absurd h6 (by decide)
    have d1 : ¬((';' : Char) = '&') := by decide
    have hstep : ea_step ⟨b, some ("&"), none, ie⟩ ';' =
        (["&" ++ String.mk b ++ ";"], flushedState) := by
      simp [ea_step, hbe, hne, d1, flushTokens, flushedState]
    simp only [List.nil_append, ea_go]
    simp [hstep, ea_go, flushTokens, flushedState]
  | cons c cs ih =>
    intro b ie hb hball hrest
    have hc := hrest c (by simp)
    obtain ⟨h1, h2, _⟩ := entityChars_amp_props hc
    have hbe : b.isEmpty = false := by
      cases b
      · exact absurd rfl hb
      · rfl
    have hstep : ea_step ⟨b, some ("&"), none, ie⟩ c =
        ([], ⟨b ++ [c], some ("&"), none, ie⟩) := by
      simp [ea_step, h1, h2, hbe, hc]
    have hball2 : ∀ x ∈ b ++ [c], entityChars ("&") x = true := by
      intro x hx
      rcases List.mem_append.mp hx with hx | hx
      · exact hball x hx
      · rw [List.mem_singleton] at hx
        subst hx
        exact hc
    have hih := ih (b ++ [c]) ie (by simp) hball2
      (fun x hx => hrest x (by simp [hx]))
    simp only [List.cons_append, ea_go]
    simp [hstep, hih, List.append_assoc]

lemma ea_195_named (rest : List Char) (c : Char)
    (hc : entityChars ("&") c = true) :
    ea_go flushedState (("&#195;&").data ++ c :: rest) =
      "&#195;" :: ea_go ⟨[c], some ("&"), none, true⟩ rest := by
  obtain ⟨h1, _, h3⟩ := entityChars_amp_props hc
  have hpre : ea_go flushedState (("&#195;&").data ++ c :: rest) =
      ea_go (⟨[], none, some ("&#195;"), true⟩ : EAState) (c :: rest) := rfl
  rw [hpre]
  have hstep : ea_step ⟨[], none, some ("&#195;"), true⟩ c =
      (["&#195;"], ⟨[c], some ("&"), none, true⟩) := by
    simp [ea_step, h1, h3, hc]
  show (ea_step ⟨[], none, some ("&#195;"), true⟩ c).1 ++ _ = _
  rw [hstep]
  rfl

lemma chStr_good (c : Char) : GoodAtom (chStr c) := Or.inl rfl

lemma goodAtom_entity {p : String} (hp : p = "&" ∨ p = "&#") (b : List Char) :
    GoodAtom (p ++ String.mk b ++ (";")) := by
  right
  have hd : (p ++ String.mk b ++ (";")).data = (p.data ++ b) ++ [';'] := by
    rw [String.data_append, String.data_append]
  constructor
  · rw [hd]
    rcases hp with rfl | rfl <;> rfl
  · rw [hd]
    exact List.getLast?_concat _

lemma goodAtom_merge {p : String} (_hp : p = "&" ∨ p = "&#") (b : List Char) :
    GoodAtom (("&#195;") ++ (p ++ String.mk b ++ (";"))) := by
  right
  have hd : (("&#195;") ++ (p ++ String.mk b ++ (";"))).data =
      ((("&#195;").data ++ p.data ++ b) ++ [';']) := by
    rw [String.data_append, String.data_append, String.data_append]
    simp [List.append_assoc]
  constructor
  · rw [hd]
    rfl
  · rw [hd]
    exact List.getLast?_concat _

lemma flushTokens_good {st : EAState} (hinv : EAInv st) {ch : Option String}
    (hch : ∀ x, ch = some x → GoodAtom x) :
    ∀ a ∈ flushTokens st ch, GoodAtom a := by
  obtain ⟨hsh, hpf, _⟩ := hinv
  intro a ha
  unfold flushTokens at ha
  simp only [List.append_assoc, List.mem_append] at ha
  rcases ha with ha | ha | ha | ha
  · rcases hsh with h | h <;> rw [h] at ha
    · simp at ha
    · simp only [List.mem_singleton] at ha
      subst ha
      exact Or.inr ⟨rfl, rfl⟩
  · rcases hpf with h | h | h <;> rw [h] at ha
    · cases hie : st.in_entity <;> rw [hie] at ha
      · simp at ha
      · simp only [if_true, List.mem_singleton] at ha
        subst ha
        exact Or.inl rfl
    · simp only [List.mem_map] at ha
      obtain ⟨c, _, rfl⟩ := ha
      exact chStr_good c
    · simp only [List.mem_map] at ha
      obtain ⟨c, _, rfl⟩ := ha
      exact chStr_good c
  · simp only [List.mem_map] at ha
    obtain ⟨c, _, rfl⟩ := ha
    exact chStr_good c
  · rcases hc : ch with _ | x <;> rw [hc] at ha
    · simp at ha
    · simp only [List.mem_singleton] at ha
      subst ha
      exact hch a hc

lemma hch_none : ∀ x : String, (none : Option String) = some x → GoodAtom x :=
  fun _ hx => nomatch hx

lemma hch_some {E : String} (hE : GoodAtom E) :
    ∀ x : String, (some E : Option String) = some x → GoodAtom x := by
  intro x hx
  cases hx
  exact hE

lemma EAInv_mk {b : List Char} {p sh : Option String} {ie : Bool}
    (h1 : sh = none ∨ sh = some ("&#195;"))
    (h2 : p = none ∨ p = some ("&") ∨ p = some ("&#"))
    (h3 : b ≠ [] → p ≠ none) : EAInv ⟨b, p, sh, ie⟩ :=
  ⟨h1, h2, h3⟩

lemma ea_step_good {st : EAState} (c : Char) (hinv : EAInv st) :
    EAInv (ea_step st c).2 ∧ ∀ a ∈ (ea_step st c).1, GoodAtom a := by
  obtain ⟨hsh, hpf, hbe⟩ := hinv
  obtain ⟨b, p, sh, ie⟩ := st
  simp only at hsh hpf hbe
  by_cases hamp : c = '&'
  · subst hamp
    rcases hsh with rfl | rfl
    · have hs : ea_step ⟨b, p, none, ie⟩ '&' =
          (flushTokens ⟨b, p, none, ie⟩ none,
           (⟨[], none, none, true⟩ : EAState)) := by
        simp [ea_step, flushedState]
      rw [hs]
      refine ⟨EAInv_mk (Or.inl rfl) (Or.inl rfl) (fun h => absurd rfl h), ?_⟩
      exact flushTokens_good (EAInv_mk (Or.inl rfl) hpf hbe) hch_none
    · have hs : ea_step ⟨b, p, some ("&#195;"), ie⟩ '&' =
          ([], ⟨b, p, some ("&#195;"), true⟩) := by
        simp [ea_step]
      rw [hs]
      exact ⟨EAInv_mk (Or.inr rfl) hpf hbe, by simp⟩
  · cases b with
    | cons b0 brest =>
      have hpn : p ≠ none := hbe (by simp)
      have hp2 : p = some ("&") ∨ p = some ("&#") := by
        rcases hpf with h | h | h
        · exact absurd h hpn
        · exact Or.inl h
        · exact Or.inr h
      have hp2s : p.getD ("") = "&" ∨ p.getD ("") = "&#" := by
        rcases hp2 with rfl | rfl
        · exact Or.inl rfl
        · exact Or.inr rfl
      by_cases hsemi : c = ';'
      · subst hsemi
        rcases hsh with rfl | rfl
        · by_cases hent :
              p.getD ("") ++ String.mk (b0 :: brest) ++ (";") = "&#195;"
          · have hs : ea_step ⟨b0 :: brest, p, none, ie⟩ ';' =
                ([], ⟨[], none,
                  some (p.getD ("") ++ String.mk (b0 :: brest) ++ (";")),
                  false⟩) := by
              simp [ea_step, hent]
            rw [hs]
            refine ⟨EAInv_mk (Or.inr (by rw [hent])) (Or.inl rfl)
                      (fun h => absurd rfl h), by simp⟩
          · have hs : ea_step ⟨b0 :: brest, p, none, ie⟩ ';' =
                (flushTokens ⟨[], none, none, false⟩
                   (some (p.getD ("") ++ String.mk (b0 :: brest) ++ (";"))),
                 (⟨[], none, none, false⟩ : EAState)) := by
              simp [ea_step, hent, flushedState]
            rw [hs]
            refine ⟨EAInv_mk (Or.inl rfl) (Or.inl rfl)
                      (fun h => absurd rfl h), ?_⟩
            exact flushTokens_good
              (EAInv_mk (Or.inl rfl) (Or.inl rfl) (fun h => absurd rfl h))
              (hch_some (goodAtom_entity hp2s (b0 :: brest)))
        · have hs : ea_step ⟨b0 :: brest, p, some ("&#195;"), ie⟩ ';' =
              ([("&#195;") ++
                 (p.getD ("") ++ String.mk (b0 :: brest) ++ (";"))],
               ⟨[], none, none, false⟩) := by
            simp [ea_step]
          rw [hs]
          refine ⟨EAInv_mk (Or.inl rfl) (Or.inl rfl)
                    (fun h => absurd rfl h), ?_⟩
          intro a ha
          rw [List.mem_singleton] at ha
          subst ha
          exact goodAtom_merge hp2s (b0 :: brest)
      · by_cases hec : entityChars (p.getD ("")) c = true
        · have hs : ea_step ⟨b0 :: brest, p, sh, ie⟩ c =
              ([], ⟨(b0 :: brest) ++ [c], p, sh, ie⟩) := by
            simp [ea_step, hamp, hsemi, hec]
          rw [hs]
          exact ⟨EAInv_mk hsh hpf (fun _ => hpn), by simp⟩
        · have hs : ea_step ⟨b0 :: brest, p, sh, ie⟩ c =
              (flushTokens ⟨b0 :: brest, p, sh, ie⟩ none ++ [chStr c],
               (⟨[], none, none, false⟩ : EAState)) := by
            simp [ea_step, hamp, hsemi, hec, flushedState]
          rw [hs]
          refine ⟨EAInv_mk (Or.inl rfl) (Or.inl rfl)
                    (fun h => absurd rfl h), ?_⟩
          intro a ha
          rcases List.mem_append.mp ha with ha | ha
          · exact flushTokens_good (EAInv_mk hsh hpf hbe) hch_none a ha
          · rw [List.mem_singleton] at ha
            subst ha
            exact chStr_good c
    | nil =>
      rcases hpf with rfl | hp2
      · cases hie : ie
        · have hs : ea_step ⟨[], none, sh, false⟩ c =
              (flushTokens ⟨[], none, sh, false⟩ (some (chStr c)),
               (⟨[], none, none, false⟩ : EAState)) := by
            simp [ea_step, hamp, flushedState]
          rw [hs]
          refine ⟨EAInv_mk (Or.inl rfl) (Or.inl rfl)
                    (fun h => absurd rfl h), ?_⟩
          exact flushTokens_good
            (EAInv_mk hsh (Or.inl rfl) (fun h => absurd rfl h))
            (hch_some (chStr_good c))
        · by_cases hhash : c = '#'
          · subst hhash
            have hs : ea_step ⟨[], none, sh, true⟩ '#' =
                ([], ⟨[], some ("&" ++ chStr '#'), sh, true⟩) := by
              simp [ea_step]
            rw [hs]
            refine ⟨EAInv_mk hsh (Or.inr (Or.inr (by rfl)))
                      (fun h => absurd rfl h), by simp⟩
          · by_cases hec : entityChars ("&") c = true
            · rcases hsh with rfl | rfl
              · have hs : ea_step ⟨[], none, none, true⟩ c =
                    ([], ⟨[c], some ("&"), none, true⟩) := by
                  simp [ea_step, hamp, hhash, hec]
                rw [hs]
                refine ⟨EAInv_mk (Or.inl rfl) (Or.inr (Or.inl rfl))
                          (fun _ => by simp), by simp⟩
              · have hs : ea_step ⟨[], none, some ("&#195;"), true⟩ c =
                    ([("&#195;")], ⟨[c], some ("&"), none, true⟩) := by
                  simp [ea_step, hamp, hhash, hec]
                rw [hs]
                refine ⟨EAInv_mk (Or.inl rfl) (Or.inr (Or.inl rfl))
                          (fun _ => by simp), ?_⟩
                intro a ha
                rw [List.mem_singleton] at ha
                subst ha
                exact Or.inr ⟨rfl, rfl⟩
            · have hs : ea_step ⟨[], none, sh, true⟩ c =
                  (flushTokens ⟨[], none, sh, true⟩ (some (chStr c)),
                   (⟨[], none, none, false⟩ : EAState)) := by
                simp [ea_step, hamp, hhash, hec, flushedState]
              rw [hs]
              refine ⟨EAInv_mk (Or.inl rfl) (Or.inl rfl)
                        (fun h => absurd rfl h), ?_⟩
              exact flushTokens_good
                (EAInv_mk hsh (Or.inl rfl) (fun h => absurd rfl h))
                (hch_some (chStr_good c))
      · have hps : p.isSome = true := by
          rcases hp2 with rfl | rfl <;> rfl
        by_cases hec : entityChars (p.getD ("")) c = true
        · have hs : ea_step ⟨[], p, sh, ie⟩ c =
              ([], ⟨[] ++ [c], p, sh, ie⟩) := by
            simp [ea_step, hamp, hps, hec]
          rw [hs]
          refine ⟨EAInv_mk hsh (Or.inr hp2) (fun _ => ?_), by simp⟩
          rcases hp2 with rfl | rfl <;> simp
        · have hs : ea_step ⟨[], p, sh, ie⟩ c =
              (flushTokens ⟨[], p, sh, ie⟩ (some (chStr c)),
               (⟨[], none, none, false⟩ : EAState)) := by
            simp [ea_step, hamp, hps, hec, flushedState]
          rw [hs]
          refine ⟨EAInv_mk (Or.inl rfl) (Or.inl rfl)
                    (fun h => absurd rfl h), ?_⟩
          exact flushTokens_good
            (EAInv_mk hsh (Or.inr hp2) (fun h => absurd rfl h))
            (hch_some (chStr_good c))

lemma ea_go_good : ∀ (l : List Char) (st : EAState), EAInv st →
    ∀ a ∈ ea_go st l, GoodAtom a := by
  intro l
  induction l with
  | nil =>
    intro st hinv a ha
    exact flushTokens_good hinv hch_none a ha
  | cons c cs ih =>
    intro st hinv a ha
    obtain ⟨hinv2, hgood⟩ := ea_step_good c hinv
    rw [show ea_go st (c :: cs) =
          (ea_step st c).1 ++ ea_go (ea_step st c).2 cs from rfl] at ha
    rcases List.mem_append.mp ha with h | h
    · exact hgood a h
    · exact ih _ hinv2 a h

/-! ## Claim theorems -/

/-- Claim C1, counterexample: `from_plain_text` does NOT flush a final
`</ul>` when the input ends while still In-List.  For `"* foo\n* bar"`
the token stream is `<ul> <li> foo <li> bar` — one `<ul>` token and zero
`</ul>` tokens, and the joined result lacks the claimed trailing
`</ul>`. -/
theorem C1_counterexample :
    fpt_tokens ("* foo\n* bar") = ["<ul>", "<li>", "foo", "<li>", "bar"] ∧
    from_plain_text ("* foo\n* bar") (" ") = "<ul> <li> foo <li> bar" ∧
    countTok ("<ul>") (fpt_tokens ("* foo\n* bar")) = 1 ∧
    countTok ("</ul>") (fpt_tokens ("* foo\n* bar")) = 0 := by
  decide

/-- Claim C1, amended: in the token stream emitted by `from_plain_text`
the number of `<ul>` tokens equals the number of `</ul>` tokens plus one
exactly when the assembler is still In-List at end of input (no final
`</ul>` is flushed); when the input does not end In-List the two counts
are equal. -/
theorem C1_ul_balance (txt : String) :
    countTok ("<ul>") (fpt_tokens txt)
      = countTok ("</ul>") (fpt_tokens txt)
        + (if (fpt_run txt).2 then 1 else 0) := by
  have h := fpt_fold_count (sequence_slide ((splitlines txt).map mkLineInfo)) false
  simpa [fpt_tokens, fpt_run] using h

/-- Claim C2 (code bug): at the input `"&#195;&&"` the generator loses a
character: the pending `&` recorded only in the `in_entity` flag is
overwritten when a second `&` arrives while `"&#195;"` is shelved
(the shelf suppresses the flush).  The atoms are `["&#195;", "&"]`, whose
concatenation `"&#195;&"` is not the input, refuting the round-trip
contract the claim states. -/
theorem C2_char_loss :
    entity_aware ("&#195;&&") = ["&#195;", "&"] ∧
    String.join (entity_aware ("&#195;&&")) ≠ "&#195;&&" := by
  decide

/-- Claim C3 (code bug): hexadecimal entity references are NOT kept as a
single atom — `entity_aware` never assigns the `'&#x'` prefix (the
`_ENTITY_CHARS['&#x']` entry is unreachable), so `"&#x41;"` is
deconstructed character by character, while the named and decimal forms
are kept atomic as claimed. -/
theorem C3_hex_entity_split :
    entity_aware ("X&#x41;Y") = ["X", "&", "#", "x", "4", "1", ";", "Y"] ∧
    entity_aware ("X&amp;Y") = ["X", "&amp;", "Y"] ∧
    entity_aware ("X&#50;Y") = ["X", "&#50;", "Y"] := by
  decide

/-- Claim C4, counterexample: a line starting with SEVERAL consecutive
bullet characters still gets a non-None bullet — `LineInfo('** x')` has
`bullet == '*'` (the loop keeps overwriting the local bullet variable),
whereas the claim says bullet must be None in that case. -/
theorem C4_counterexample :
    (mkLineInfo (("** x").data)).bullet = some '*' ∧
    String.mk (mkLineInfo (("** x").data)).text = "x" := by
  decide

/-- Claim C4, amended: `LineInfo` sets a non-None bullet exactly when the
right-stripped line, after any leading whitespace, starts with a run of
ONE OR MORE bullet characters immediately followed by a whitespace
character (and hence, the line being right-stripped, by further
non-whitespace text); the recorded bullet is the last character of the
run.  A bullet character directly followed by non-whitespace still gives
bullet None. -/
theorem C4_bullet_rule (s : List Char) :
    (mkLineInfo s).bullet = bulletSpec s := by
  rw [mkLineInfo_bullet, lineScan_eval (rstripL s)]
  rfl

/-- Claim C5, counterexample: a NON-bulleted line that begins with
whitespace keeps that whitespace as `prefix` — `LineInfo('  plain text')`
has `prefix == '  '`, not None as the claim states. -/
theorem C5_counterexample :
    (mkLineInfo (("  plain text").data)).pfx = some ([' ', ' ']) ∧
    (mkLineInfo (("  plain text").data)).bullet = none := by
  decide

/-- Claim C5, amended: `prefix` is the leading whitespace of the
right-stripped line whenever that is nonempty, and None otherwise —
independently of whether a bullet is recognized. -/
theorem C5_pfx_rule (s : List Char) :
    (mkLineInfo s).pfx = pfxSpec s := by
  rw [mkLineInfo_pfx, lineScan_eval (rstripL s)]
  rfl

/-- Claim C7: on a plain-text line (not empty, not bulleted, not an
in-list continuation), `from_plain_text` emits `<p>` before the escaped
text exactly when it just closed a list (`in_list`), or the line is the
very first (`prev_o is None`), or the previous line was empty; otherwise
it emits `<br>`; the concrete two-line example joins to
`"<p> A two-line <br> paragraph"`. -/
theorem C7_paragraph_vs_break (st : Bool) (prev : Option LineInfo)
    (o : LineInfo) (h1 : o.empty = false) (h2 : o.bullet = none)
    (h3 : (st && pyTruthyPfx o.pfx) = false) :
    fpt_step st prev o =
      ((if st then ["</ul>"] else []) ++
        [if st || prev.isNone || prevEmpty prev then "<p>" else "<br>",
         html_escape o.text],
       false) ∧
    from_plain_text ("A two-line\nparagraph") (" ")
      = "<p> A two-line <br> paragraph" := by
  refine ⟨?_, by decide⟩
  cases st with
  | false =>
    by_cases hc : (prev.isNone || prevEmpty prev) = true
    · simp [fpt_step, h1, h2, hc]
    · simp [fpt_step, h1, h2, hc]
  | true =>
    have hp : pyTruthyPfx o.pfx = false := by simpa using h3
    simp [fpt_step, h1, h2, hp]

/-- Claim C7, witness at a concrete plain first line. -/
theorem C7_witness :
    (mkLineInfo (("x").data)).empty = false ∧
    fpt_step false none (mkLineInfo (("x").data)) =
      ((if false then ["</ul>"] else []) ++
        [if false || (none : Option LineInfo).isNone || prevEmpty none
          then "<p>" else "<br>",
         html_escape (mkLineInfo (("x").data)).text],
       false) :=
  ⟨by decide,
   (C7_paragraph_vs_break false none (mkLineInfo (("x").data))
     (by decide) (by decide) (by decide)).1⟩

/-- Claim C8: a line of optional leading whitespace, one bullet
character, and nothing else but trailing whitespace is NOT a list item:
`bullet` is None and `text` is the bullet character itself. -/
theorem C8_bare_bullet (w1 w2 : List Char) (b : Char)
    (h1 : ∀ c ∈ w1, wsChar c = true) (h2 : ∀ c ∈ w2, wsChar c = true)
    (hb : bulletChar b = true) :
    (mkLineInfo (w1 ++ [b] ++ w2)).bullet = none ∧
    (mkLineInfo (w1 ++ [b] ++ w2)).text = [b] := by
  have hbw : wsChar b = false := bullet_not_ws hb
  have hr : rstripL (w1 ++ [b] ++ w2) = w1 ++ [b] := by
    rw [rstripL_append_ws h2 (w1 ++ [b]), rstripL_ends_nonws hbw]
  have hscan : lineScan (w1 ++ [b]) none [] = (none, w1) := by
    rw [lineScan_ws_phase]
    rw [dropWhile_append_all h1 [b], takeWhile_append_all h1 [b]]
    simp only [List.dropWhile_cons, List.takeWhile_cons, hbw,
               Bool.false_eq_true, if_false, List.dropWhile_nil,
               List.takeWhile_nil, List.append_nil, List.nil_append]
    simp [lineScan, hb]
  have hoff : (if w1.isEmpty then 0 else w1.length) = w1.length := by
    cases w1 <;> simp
  constructor
  · rw [mkLineInfo_bullet, hr, hscan]
  · rw [mkLineInfo_text, hr, hscan]
    simp only [hoff, Option.isSome_none, Bool.false_eq_true, if_false,
               Nat.add_zero]
    rw [List.drop_left]
    simp [lstripL, hbw]

/-- Claim C8, witness at the line `"  * "`. -/
theorem C8_witness :
    (mkLineInfo (([' ', ' '] : List Char) ++ ['*'] ++ [' '])).bullet = none ∧
    (mkLineInfo (([' ', ' '] : List Char) ++ ['*'] ++ [' '])).text = ['*'] :=
  C8_bare_bullet [' ', ' '] [' '] '*' (by decide) (by decide) (by decide)

/-- Claim C9: while In-List, a non-empty line with no bullet but a
non-None prefix (an indented continuation line) emits exactly `<br>`
followed by the escaped text, and the assembler stays In-List. -/
theorem C9_cont_line (s : List Char) (prev : Option LineInfo)
    (h1 : (mkLineInfo s).empty = false)
    (h2 : (mkLineInfo s).bullet = none)
    (h3 : (mkLineInfo s).pfx ≠ none) :
    fpt_step true prev (mkLineInfo s) =
      (["<br>", html_escape (mkLineInfo s).text], true) := by
  have hp : pyTruthyPfx (mkLineInfo s).pfx = true := by
    rcases ho : (mkLineInfo s).pfx with _ | p
    · exact absurd ho h3
    · have hne := mkLineInfo_pfx_nonempty ho
      simp [pyTruthyPfx, hne]
  simp [fpt_step, h1, h2, hp]

/-- Claim C6: a completed `&#195;` merges with an immediately following
completed numeric entity into one atom (`"&#195;&#159;"` →
`["&#195;&#159;"]`) but never with ordinary text (`"&#195;Z"` →
`["&#195;", "Z"]`) nor with a following named entity: for EVERY named
entity `&nm;` (nonempty body of name characters), the shelved `&#195;`
and the named entity are yielded as two separate atoms. -/
theorem C6_double_byte_merge (nm : List Char) (h1 : nm ≠ [])
    (h2 : ∀ c ∈ nm, entityChars ("&") c = true) :
    entity_aware ("&#195;&#159;") = ["&#195;&#159;"] ∧
    entity_aware ("&#195;Z") = ["&#195;", "Z"] ∧
    entity_aware ("&#195;&" ++ String.mk nm ++ ";") =
      ["&#195;", "&" ++ String.mk nm ++ ";"] := by
  refine ⟨by decide, by decide, ?_⟩
  rcases nm with _ | ⟨c, cs⟩
  · exact absurd rfl h1
  · have hc := h2 c (by simp)
    have hdata : (("&#195;&") ++ String.mk (c :: cs) ++ (";")).data =
        ("&#195;&").data ++ c :: (cs ++ [';']) := by
      rw [String.data_append, String.data_append]
      rfl
    unfold entity_aware
    rw [hdata, ea_195_named (cs ++ [';']) c hc]
    rw [ea_accum cs [c] true (by simp)
        (by intro x hx; rw [List.mem_singleton] at hx; subst hx; exact hc)
        (fun x hx => h2 x (by simp [hx]))]
    rfl

/-- Claim C6, witness at the named entity `&amp;`. -/
theorem C6_witness :
    (['a', 'm', 'p'] : List Char) ≠ [] ∧
    entity_aware ("&#195;&" ++ String.mk ['a', 'm', 'p'] ++ ";") =
      ["&#195;", "&" ++ String.mk ['a', 'm', 'p'] ++ ";"] :=
  ⟨by decide,
   (C6_double_byte_merge ['a', 'm', 'p'] (by decide) (by decide)).2.2⟩

/-- Claim C10: every atom yielded by `entity_aware` is either a single
character or a string that begins with `&` and ends with `;` (a completed
entity reference, possibly the merged double-byte atom). -/
theorem C10_atom_shapes (s : String) (a : String)
    (h : a ∈ entity_aware s) : GoodAtom a :=
  ea_go_good s.data flushedState
    ⟨Or.inl rfl, Or.inl rfl, fun hx => absurd rfl hx⟩ a h

/-- Claim C10, witness at a named entity atom. -/
theorem C10_witness :
    (("&amp;") ∈ entity_aware ("&amp;")) ∧ GoodAtom ("&amp;") :=
  ⟨by decide, C10_atom_shapes ("&amp;") ("&amp;") (by decide)⟩

/-- Claim C9, witness at the continuation line `"  cont"`. -/
theorem C9_witness :
    (mkLineInfo (("  cont").data)).empty = false ∧
    fpt_step true none (mkLineInfo (("  cont").data)) =
      (["<br>", html_escape (mkLineInfo (("  cont").data)).text], true) :=
  ⟨by decide,
   C9_cont_line (("  cont").data) none (by decide) (by decide) (by decide)⟩

end Visaplan
